import Mathlib

/- Verification development for the boone scheduling engine.

   Shallow embedding of the parts of the source the claims refer to:
   - internal/boone/dispatch.go   (Dispatcher.Start ingress dedup, Stop, runTarget)
   - internal/boone/watch.go      (Watcher.Event)
   - internal/boone/file.go       (GetTargetGlob)
   - internal/boone/config.go     (FinalizeConfig path-containment passes)
   - internal/cage/encoding/gob/gob.go (EncodeToFile)
   - cmd/boone/eval/eval.go       (root.Handler.Run session-resume scan)
   - internal/third_party/github.com/sync/slice.go (Slice)

   Conventions:
   - A filesystem path is modelled as its list of "/"-separated components
     (the Go string "/a/b" becomes ["", "a", "b"]); a path is absolute
     exactly when its first component is the empty string. A Go string
     prefix test on such cleaned paths is a component-list prefix test.
   - Machine time (timestamps, durations, sleeps) is carried as Nat where a
     claim mentions it and elided where no claim depends on it.
   - Effects that cross channels are modelled as explicit result values:
     an emitted status becomes a list element, an invoked cancel handle
     becomes a handle id in a result list. -/

namespace Boone

/-- Component list of a filesystem path, see the convention above. -/
abbrev GoPath := List String

/-- Whether a path is absolute: its first component is empty, mirroring a
leading "/" in the Go string form. -/
def isAbsPath (p : GoPath) : Bool := p.head? == some ""

/-- Op models cage/os/file/watcher.Op, a uint8 bit flag; the zero value 0 is
the Go zero Event.Op. -/
abbrev Op := Nat

/-- Create op bit (1 shl 0) from cage/os/file/watcher. -/
def Op.Create : Op := 1

/-- Rename op bit (1 shl 1). -/
def Op.Rename : Op := 2

/-- Remove op bit (1 shl 2). -/
def Op.Remove : Op := 4

/-- Write op bit (1 shl 3). -/
def Op.Write : Op := 8

/-- Op.String from cage/os/file/watcher: the switch defaults to "Write" for
any value that is not Create, Rename or Remove. -/
def Op.str (o : Op) : String :=
  if o = Op.Create then "Create"
  else if o = Op.Rename then "Rename"
  else if o = Op.Remove then "Remove"
  else "Write"

/-- Event models cage/os/file/watcher.Event (the Err field, only used by the
fsnotify adapter, is elided). -/
structure Event where
  Path : GoPath := []
  Op : Op := 0
deriving DecidableEq, Repr

/-- TargetStatus mirrors the source: a string-typed enum. -/
abbrev TargetStatus := String

/-- TargetCanceled constant from internal/boone/boone.go. -/
def TargetCanceled : TargetStatus := "canceled"

/-- TargetFailed constant from internal/boone/boone.go. -/
def TargetFailed : TargetStatus := "failed"

/-- TargetPending constant from internal/boone/boone.go. -/
def TargetPending : TargetStatus := "pending"

/-- TargetResumed constant from internal/boone/boone.go. -/
def TargetResumed : TargetStatus := "resumed"

/-- TargetStarted constant from internal/boone/boone.go. -/
def TargetStarted : TargetStatus := "started"

/-- Glob models cage/path/filepath.Glob: a doublestar pattern anchored at a
root. After FinalizeConfig both are stored absolute; the pattern is kept in
the same component form as paths so the resolution passes can join it. -/
structure Glob where
  Pattern : GoPath := []
  Root : GoPath := []
deriving DecidableEq, Repr

/-- Exec models internal/boone.Exec. Timeout is carried already parsed (the
duration-string field and its parse are elided: no claim depends on the
string form); Dir is relative in a raw config and absolute after
FinalizeConfig, exactly as in the source where the field is rewritten in
place. -/
structure Exec where
  Cmd : String := ""
  Dir : GoPath := []
  timeout : Nat := 0
  Env : List String := []
deriving DecidableEq, Repr

/-- Handler models internal/boone.Handler. -/
structure Handler where
  Label : String := ""
  Exec : List Exec := []
deriving DecidableEq, Repr

/-- TargetTree models internal/boone.TargetTree, the minimal per-target
record snapshotted into Target.Tree. -/
structure TargetTree where
  Id : String := ""
  Label : String := ""
  Handler : List Handler := []
deriving DecidableEq, Repr

/-- Target models internal/boone.Target. Downstream (resolution-time
pointers) is elided; Tree is the snapshot the claims use. The debounce field
is the parsed form of the Debounce duration string. -/
structure Target where
  Id : String := ""
  Label : String := ""
  Root : GoPath := []
  Include : List Glob := []
  Exclude : List Glob := []
  Handler : List Handler := []
  Upstream : List String := []
  Tree : List TargetTree := []
  debounce : Nat := 0
deriving DecidableEq, Repr

/-- ExecRequest models internal/boone.ExecRequest; RecvTime is a Nat
timestamp. -/
structure ExecRequest where
  Cause : String := ""
  Debounce : Nat := 0
  Event : Event := {}
  Include : Glob := {}
  RecvTime : Nat := 0
  Tree : List TargetTree := []
  TargetId : String := ""
  TargetLabel : String := ""
deriving DecidableEq, Repr

/-- Status models internal/boone.Status. StartTime, EndTime, RunLen, Pid,
Stdout and Stderr (timing and captured-output diagnostics no claim refers
to) are elided. -/
structure Status where
  Cause : TargetStatus := ""
  Cmd : String := ""
  Downstream : List String := []
  Err : String := ""
  HandlerLabel : String := ""
  Include : Glob := {}
  Op : String := ""
  Path : GoPath := []
  TargetId : String := ""
  TargetLabel : String := ""
  UpstreamTargetLabel : String := ""
deriving DecidableEq, Repr

/-- TargetPass models internal/boone.TargetPass (RunLen elided). -/
structure TargetPass where
  TargetId : String := ""
deriving DecidableEq, Repr

/-- TreePass models internal/boone.TreePass. -/
structure TreePass where
  DispatchTargetId : String := ""
deriving DecidableEq, Repr

/-- Session models internal/boone.Session. -/
structure Session where
  Statuses : List Status := []
  Version : Nat := 0
deriving DecidableEq, Repr

/- ------------------------------------------------------------------
   third_party/github.com/sync.Slice and the ingress dedup loop
   (dispatch.go lines 214-223).
   ------------------------------------------------------------------ -/

/-- Slice.Delete from third_party/github.com/sync/slice.go: remove the item
at idx when idx is in bounds (the Go guard idx > -1 is vacuous here because
the caller uses a Nat loop counter). -/
def sliceDelete (items : List ExecRequest) (idx : Nat) : List ExecRequest :=
  if idx < items.length then items.take idx ++ items.drop (idx + 1) else items

/-- Index of the first queued request with the given target id, mirroring
the ingress loop counter n over Slice.Iter in Dispatcher.Start. -/
def findQueuedIdx (items : List ExecRequest) (tid : String) : Option Nat :=
  items.findIdx? (fun item => item.TargetId == tid)

/-- Joint outcome of the ingress dedup loop (dispatch.go 214-223) together
with the Slice.Iter goroutine it ranges over. Iter acquires the slice mutex
and holds it across every send on an unbuffered channel; the ingress
goroutine receives items one at a time and, on the first target-id match at
index n, calls Slice.Delete n (which needs the same mutex) and breaks
without draining the channel. Delete can therefore only acquire the mutex
once Iter has sent its last item, closed the channel and unlocked; if the
match is followed by further items, Iter blocks forever on an un-received
send while Delete blocks on the mutex, and neither goroutine progresses.
The result is some finalQueue when the interaction terminates and none when
the two goroutines deadlock. -/
def ingressDedup (items : List ExecRequest) (tid : String) : Option (List ExecRequest) :=
  match findQueuedIdx items tid with
  | none => some items
  | some n => if n + 1 = items.length then some (sliceDelete items n) else none

/- ------------------------------------------------------------------
   Dispatcher.Stop (dispatch.go lines 306-322).
   ------------------------------------------------------------------ -/

/-- TargetContext models dispatch.TargetContext; the cancel handle is an
opaque id (the Ctx field carries no information a claim depends on). -/
structure TargetContext where
  Cancel : Nat := 0
deriving DecidableEq, Repr

/-- sync.Map.Range over a snapshot of the map in some iteration order: the
callback is invoked entry by entry and iteration stops as soon as it
returns false. Returns the entries the callback was invoked on. -/
def syncMapRange (f : String → TargetContext → Bool) :
    List (String × TargetContext) → List (String × TargetContext)
  | [] => []
  | e :: rest => if f e.1 e.2 then e :: syncMapRange f rest else [e]

/-- Observable effect of Dispatcher.Stop. -/
structure StopEffect where
  doneClosed : Bool := false
  cancelled : List Nat := []
deriving DecidableEq, Repr

/-- Dispatcher.Stop: close done, then Range over targetCtx with a callback
that invokes the current entry.Cancel and returns false. -/
def dispatcherStop (targetCtx : List (String × TargetContext)) : StopEffect :=
  { doneClosed := true
    cancelled := (syncMapRange (fun _ _ => false) targetCtx).map (fun e => e.2.Cancel) }

/- ------------------------------------------------------------------
   internal/cage/encoding/gob.EncodeToFile (gob.go lines 16-27).
   ------------------------------------------------------------------ -/

/-- File-content transformation performed by gob.EncodeToFile: the file is
opened with O_WRONLY|O_CREATE (no O_TRUNC, no temporary file, no rename)
and the encoder writes the encoded bytes from offset 0 over the previous
contents, which are never truncated. prev is the byte content before the
call, encoded the full encoding of the value. -/
def EncodeToFile (prev encoded : List Nat) : List Nat :=
  encoded ++ prev.drop encoded.length

/- ------------------------------------------------------------------
   Session-resume scan at startup (cmd/boone root.Handler.Run,
   eval.go lines 241-275).
   ------------------------------------------------------------------ -/

/-- One iteration of the session-resume loop over a decoded Status: causes
Resumed and Pending are first switched back to Started; then the first
config target with the same id is looked up; when found and the cause is
Started, the displayed cause becomes Resumed and a synthetic
cause-"resume" ExecRequest carrying a copy of the target tree is emitted;
when no config target matches, the status is dropped. Returns the seeded
status (none when pruned) and the emitted request (none when not
resumed). -/
def processStatus (targets : List Target) (s : Status) :
    Option Status × Option ExecRequest :=
  let s1 := if s.Cause = TargetResumed ∨ s.Cause = TargetPending
            then { s with Cause := TargetStarted } else s
  match targets.find? (fun t => t.Id == s1.TargetId) with
  | none => (none, none)
  | some t =>
    if s1.Cause = TargetStarted then
      (some { s1 with Cause := TargetResumed },
       some { Cause := "resume"
              TargetId := s1.TargetId
              TargetLabel := s1.TargetLabel
              Tree := t.Tree })
    else (some s1, none)

/-- The full resume scan over the decoded status list, accumulating the
seeded status list and the resume ExecRequests in order. -/
def resumeScan (targets : List Target) : List Status → List Status × List ExecRequest
  | [] => ([], [])
  | s :: rest =>
    let r := processStatus targets s
    let acc := resumeScan targets rest
    (r.1.toList ++ acc.1, r.2.toList ++ acc.2)

/- ------------------------------------------------------------------
   Dispatcher.runTarget (dispatch.go lines 328-520).

   The executor invocation and the per-command context are summarized by an
   ExecOutcome oracle f indexed by the order in which execs are started:
   execErr is the top-level error returned by Executor.Buffered, ctxErr the
   value of cmdCtx.Err() read right after the executor returns. Template
   expansion and pipeline parsing are elided: their failures panic into
   panicCh instead of emitting a status, so they never reach the
   failure-status path the claims are about; cooldown sleeps and the
   targetCtx store/delete bookkeeping (side effects on the concurrent map,
   the subject of the Stop claim) are likewise elided because only the
   emitted statuses matter here.
   ------------------------------------------------------------------ -/

/-- Outcome of one executor invocation as observed by runTarget. -/
structure ExecOutcome where
  execErr : Option String := none
  ctxErr : Option String := none
deriving DecidableEq, Repr

/-- The error runTarget acts on after an exec: err is first the executor
error, then overridden by the context error when that is non-nil
(dispatch.go 432-435). -/
def ExecOutcome.finalErr (o : ExecOutcome) : Option String :=
  match o.ctxErr with
  | some e => some e
  | none => o.execErr

/-- A message runTarget sends on one of the Dispatcher status channels. -/
inductive Emit where
  | start (s : Status)
  | fail (s : Status)
  | targetPass (p : TargetPass)
  | treePass (p : TreePass)
deriving DecidableEq, Repr

/-- Whether an emission is a Started status on TargetStartCh. -/
def Emit.isStart : Emit → Bool
  | .start _ => true
  | _ => false

/-- Whether an emission is a Failed/Canceled status on TargetFailCh. -/
def Emit.isFail : Emit → Bool
  | .fail _ => true
  | _ => false

/-- Whether an emission is a TargetPass on TargetPassCh. -/
def Emit.isTargetPass : Emit → Bool
  | .targetPass _ => true
  | _ => false

/-- Whether an emission is a TreePass on TreePassCh. -/
def Emit.isTreePass : Emit → Bool
  | .treePass _ => true
  | _ => false

/-- The Started status sent just before the executor is invoked
(dispatch.go 426-429). -/
def startStatus (req : ExecRequest) (t : TargetTree) (hd : Handler) : Status :=
  { TargetId := t.Id
    TargetLabel := t.Label
    HandlerLabel := hd.Label
    Path := req.Event.Path
    Cause := TargetStarted }

/-- The Failed/Canceled status built when err is non-nil after an exec
(dispatch.go 466-501): cause is TargetCanceled exactly when ctxErr was
non-nil, Err is the final error message, Downstream the labels of the tree
members after the first. -/
def failStatus (req : ExecRequest) (t : TargetTree) (hd : Handler) (e : Exec)
    (o : ExecOutcome) (msg : String) : Status :=
  { Cmd := e.Cmd
    Err := msg
    Cause := if o.ctxErr.isSome then TargetCanceled else TargetFailed
    Include := req.Include
    TargetId := t.Id
    TargetLabel := t.Label
    HandlerLabel := hd.Label
    UpstreamTargetLabel := req.TargetLabel
    Op := req.Event.Op.str
    Downstream := (req.Tree.drop 1).map (fun d => d.Label) }

/-- Result of a prefix of the runTarget loops: the emissions so far, the
next exec index for the outcome oracle, and whether the run returned early
because an exec failed. -/
structure RunOut where
  emits : List Emit := []
  next : Nat := 0
  stopped : Bool := false
deriving DecidableEq, Repr

/-- Innermost runTarget loop: the execs of one handler (dispatch.go
377-507). Emits Started, consumes the next outcome, and on a non-nil final
error emits the failure status and stops. -/
def runExecs (req : ExecRequest) (t : TargetTree) (hd : Handler)
    (f : Nat → ExecOutcome) : List Exec → Nat → RunOut
  | [], k => ⟨[], k, false⟩
  | e :: rest, k =>
    match (f k).finalErr with
    | some msg =>
      ⟨[Emit.start (startStatus req t hd), Emit.fail (failStatus req t hd e (f k) msg)],
       k + 1, true⟩
    | none =>
      ⟨Emit.start (startStatus req t hd) :: (runExecs req t hd f rest (k + 1)).emits,
       (runExecs req t hd f rest (k + 1)).next,
       (runExecs req t hd f rest (k + 1)).stopped⟩

/-- Middle runTarget loop: the handlers of one tree member (dispatch.go
376-508); a stop in a handler returns immediately from runTarget. -/
def runHandlers (req : ExecRequest) (t : TargetTree)
    (f : Nat → ExecOutcome) : List Handler → Nat → RunOut
  | [], k => ⟨[], k, false⟩
  | hd :: rest, k =>
    if (runExecs req t hd f hd.Exec k).stopped = true then runExecs req t hd f hd.Exec k
    else
      ⟨(runExecs req t hd f hd.Exec k).emits ++
         (runHandlers req t f rest (runExecs req t hd f hd.Exec k).next).emits,
       (runHandlers req t f rest (runExecs req t hd f hd.Exec k).next).next,
       (runHandlers req t f rest (runExecs req t hd f hd.Exec k).next).stopped⟩

/-- Outer runTarget loop over the tree members (dispatch.go 365-514): after
all handlers of a member succeed a TargetPass is emitted. -/
def runTargets (req : ExecRequest) (f : Nat → ExecOutcome) :
    List TargetTree → Nat → RunOut
  | [], k => ⟨[], k, false⟩
  | t :: rest, k =>
    if (runHandlers req t f t.Handler k).stopped = true then runHandlers req t f t.Handler k
    else
      ⟨(runHandlers req t f t.Handler k).emits ++
         Emit.targetPass { TargetId := t.Id } ::
           (runTargets req f rest (runHandlers req t f t.Handler k).next).emits,
       (runTargets req f rest (runHandlers req t f t.Handler k).next).next,
       (runTargets req f rest (runHandlers req t f t.Handler k).next).stopped⟩

/-- Dispatcher.runTarget: run the whole tree and, when no exec failed, emit
the final TreePass (dispatch.go 516-519). -/
def runTarget (req : ExecRequest) (f : Nat → ExecOutcome) : List Emit :=
  if (runTargets req f req.Tree 0).stopped = true then (runTargets req f req.Tree 0).emits
  else (runTargets req f req.Tree 0).emits ++
    [Emit.treePass { DispatchTargetId := req.TargetId }]

/-- An emission that is neither a failure status nor a TreePass. -/
def Emit.benign (x : Emit) : Prop := x.isFail = false ∧ x.isTreePass = false

/-- Number of execs a list of handlers would start if none failed. -/
def handlersExecCount (hs : List Handler) : Nat :=
  (hs.map (fun hd => hd.Exec.length)).sum

/-- Number of execs a tree would start if none failed. -/
def treeExecCount (tree : List TargetTree) : Nat :=
  (tree.map (fun t => handlersExecCount t.Handler)).sum

/- ------------------------------------------------------------------
   Watcher.Event (watch.go lines 65-192).

   The filesystem and the glob matcher are oracles: fs p is none when p no
   longer exists and some isDir otherwise; matcher p is the
   MatchAnyOutput that Target.MatchPath (via the out-of-src
   cage/path/filepath.PathMatchAny) returns for p.
   ------------------------------------------------------------------ -/

/-- Modelled from the spec: cage/path/filepath.MatchAnyOutput is not under
src/; section 4.1 gives match_any the shape match, matched_include,
matched_exclude, and watch.go reads exactly the Match flag and whether the
matched exclude pattern is the empty string. -/
structure MatchAnyOutput where
  Match : Bool := false
  Include : GoPath := []
  Exclude : GoPath := []
deriving DecidableEq, Repr

/-- Lookup in the Watcher include map (the sync.Map of watched path to the
Glob responsible for watching it), modelled as an association list. -/
def lookupInclude (m : List (GoPath × Glob)) (p : GoPath) : Option Glob :=
  (m.find? (fun e => e.1 == p)).map (fun e => e.2)

/-- Store into the Watcher include map: overwrite the entry when the key is
present, append otherwise. -/
def storeInclude (m : List (GoPath × Glob)) (p : GoPath) (g : Glob) :
    List (GoPath × Glob) :=
  if (m.find? (fun e => e.1 == p)).isSome
  then m.map (fun e => if e.1 == p then (p, g) else e)
  else m ++ [(p, g)]

/-- filepath.Dir on a cleaned absolute component path: drop the final
component. -/
def dirOf (p : GoPath) : GoPath := p.dropLast

/-- The ExecRequest a Watcher sends when an event passes its filters
(watch.go 177-191). -/
def mkWatcherReq (w : Target) (inc : Glob) (event : Event) : ExecRequest :=
  { Cause := "watcher"
    Event := event
    Include := inc
    TargetId := w.Id
    TargetLabel := w.Label
    Tree := w.Tree
    Debounce := w.debounce }

/-- Observable outcome of one Watcher.Event call: the include map
afterwards, the paths newly registered with the filesystem monitor via
AddPath, and the ExecRequest sent on ExecReqCh, if any. -/
structure WatcherEventOut where
  state : List (GoPath × Glob) := []
  added : List GoPath := []
  req : Option ExecRequest := none
deriving DecidableEq, Repr

/-- Watcher.Event (watch.go 65-192). Ops other than Write and Create return
immediately; a path that no longer exists is dropped; a Create looks up the
Glob of the parent directory and, when the parent is unknown, falls
through emitting nothing; a new directory that is not excluded is watched
and stored without emitting; a new file is stored (not watched) and emits
iff the matcher matched; a Write emits iff the path is known and the
matcher matched. -/
def watcherEvent (fs : GoPath → Option Bool) (matcher : GoPath → MatchAnyOutput)
    (w : Target) (st : List (GoPath × Glob)) (event : Event) : WatcherEventOut :=
  if event.Op ≠ Op.Write ∧ event.Op ≠ Op.Create then ⟨st, [], none⟩
  else
    match fs event.Path with
    | none => ⟨st, [], none⟩
    | some isDir =>
      let matchRes := matcher event.Path
      if event.Op = Op.Create then
        match lookupInclude st (dirOf event.Path) with
        | none => ⟨st, [], none⟩
        | some inc =>
          if isDir then
            if matchRes.Match = true ∨ matchRes.Exclude = [] then
              ⟨storeInclude st event.Path inc, [event.Path], none⟩
            else ⟨st, [], none⟩
          else
            ⟨storeInclude st event.Path inc, [],
             if matchRes.Match = true then some (mkWatcherReq w inc event) else none⟩
      else
        match lookupInclude st event.Path with
        | none => ⟨st, [], none⟩
        | some inc =>
          ⟨st, [],
           if matchRes.Match = true then some (mkWatcherReq w inc event) else none⟩

/- ------------------------------------------------------------------
   Glob evaluation: GetTargetGlob (file.go lines 414-473) over the
   out-of-src cage/path/filepath.GlobAny and FileAncestor.
   ------------------------------------------------------------------ -/

/-- GlobAnyInput models cage/path/filepath.GlobAnyInput as used by
GetTargetGlob. -/
structure GlobAnyInput where
  Include : List Glob := []
  Exclude : List Glob := []
deriving DecidableEq, Repr

/-- GlobAnyOutput models cage/path/filepath.GlobAnyOutput; the Go maps are
association lists here. -/
structure GlobAnyOutput where
  Include : List (GoPath × Glob) := []
  Exclude : List (GoPath × Glob) := []
deriving DecidableEq, Repr

/-- Modelled from the spec: cage/path/filepath.GlobAny is not under src/.
Section 4.1 and the GetTargetGlob doc comment agree that the Include
mapping holds every existing path matching at least one include pattern and
no exclude pattern (keyed to the first matching include), and that the
Exclude mapping holds paths that matched at least one include pattern but
were rejected because they matched an exclude pattern (keyed to that
exclude). fs enumerates the existing paths, m g p decides whether p matches
the doublestar pattern of g. -/
def GlobAny (fs : List GoPath) (m : Glob → GoPath → Bool)
    (inp : GlobAnyInput) : GlobAnyOutput :=
  { Include := fs.filterMap (fun p =>
      match inp.Include.find? (fun g => m g p) with
      | none => none
      | some g =>
        if inp.Exclude.any (fun e => m e p) then none else some (p, g))
    Exclude := fs.filterMap (fun p =>
      if inp.Include.any (fun g => m g p) then
        match inp.Exclude.find? (fun e => m e p) with
        | none => none
        | some e => some (p, e)
      else none) }

/-- Modelled from the spec: cage/path/filepath.FileAncestor is not under
src/. Sections 4.1 and I3 require every directory d with root below-or-equal
d strictly below name, so the ancestors of name under root are its proper
component prefixes that still have root as a prefix. -/
def FileAncestor (name root : GoPath) : List GoPath :=
  (List.range name.length).filterMap (fun k =>
    if root.isPrefixOf (name.take k) then some (name.take k) else none)

/-- Overwrite-or-append assignment on an association-list map, the model of
a Go map store. -/
def setAssoc (m : List (GoPath × Glob)) (k : GoPath) (v : Glob) :
    List (GoPath × Glob) :=
  if (m.find? (fun e => e.1 == k)).isSome
  then m.map (fun e => if e.1 == k then (k, v) else e)
  else m ++ [(k, v)]

/-- The ancestor pass of GetTargetGlob (file.go 451-459): for every matched
path, every ancestor up to the include root is mapped to the same
include. The Go code ranges over the map while inserting; since every
inserted key is an ancestor of an original key, iterating over the original
entries is equivalent. -/
def addAncestors (inc : List (GoPath × Glob)) : List (GoPath × Glob) :=
  inc.foldl (fun acc e =>
    (FileAncestor e.1 e.2.Root).foldl (fun acc2 a => setAssoc acc2 a e.2) acc) inc

/-- The per-include body of GetTargetGlob (file.go 415-470). The roots are
modelled as already absolute, so the filepath.Abs call is the identity.
When both mappings come back empty the include root itself is mapped to
the include so the root stays watchable. -/
def getTargetGlobOne (fs : List GoPath) (m : Glob → GoPath → Bool)
    (exclude : List Glob) (i : Glob) : GlobAnyOutput :=
  let globOut := GlobAny fs m
    { Include := [{ Pattern := i.Pattern, Root := i.Root }], Exclude := exclude }
  let withAnc : GlobAnyOutput := { globOut with Include := addAncestors globOut.Include }
  if withAnc.Include.isEmpty = true ∧ withAnc.Exclude.isEmpty = true then
    { withAnc with Include := [(i.Root, { Pattern := i.Pattern, Root := i.Root })] }
  else withAnc

/-- GetTargetGlob (file.go 414-473): one GlobAnyOutput per include, in
order. -/
def GetTargetGlob (fs : List GoPath) (m : Glob → GoPath → Bool)
    (incs exclude : List Glob) : List GlobAnyOutput :=
  incs.map (getTargetGlobOne fs m exclude)

/- ------------------------------------------------------------------
   FinalizeConfig path-resolution and containment passes (config.go lines
   185-375). The cross-target passes (label and id uniqueness, downstream
   and tree computation, auto-start resolution) and the template-variable
   and duration parsing are elided: claim C9 is only about the containment
   of resolved roots and exec dirs, which is decided entirely by the
   per-target passes embedded here. fs is the filesystem oracle of
   cage/os/file.Exists: none when the path does not exist, some isDir
   otherwise.
   ------------------------------------------------------------------ -/

/-- Path cleaning on component lists: resolve "." and ".." the way
filepath.Join cleans its result. -/
def cleanPath (p : GoPath) : GoPath :=
  p.foldl (fun acc seg =>
    if seg = ".." then acc.dropLast
    else if seg = "." then acc
    else acc ++ [seg]) []

/-- Modelled from the spec: cage/path/filepath.Append is not under src/.
Section 4.2 step 4 joins a relative path onto a base root, and the
FinalizeConfig call sites wrap its error as the joined value lying outside
the base (config.go 348-351), so Append cleans the joined path and fails
exactly when the base is no longer a component prefix of the result. -/
def Append (base rel : GoPath) : Except String GoPath :=
  if base.isPrefixOf (cleanPath (base ++ rel))
  then .ok (cleanPath (base ++ rel))
  else .error "outside the base path"

/-- Except-valued traversal mirroring the resolve-and-append loops of
FinalizeConfig: stop at the first error, otherwise collect the rewritten
elements in order. -/
def mapME (f : α → Except String β) : List α → Except String (List β)
  | [] => .ok []
  | x :: xs =>
    match f x with
    | .error e => .error e
    | .ok y =>
      match mapME f xs with
      | .error e => .error e
      | .ok ys => .ok (y :: ys)

/-- Root resolution for one include/exclude glob with a non-empty relative
root (config.go 237-254 and 291-308): reject absolute roots, join onto the
target root, require the result to exist and be a directory. -/
def resolveRelRoot (fs : GoPath → Option Bool) (troot r : GoPath) :
    Except String GoPath :=
  if isAbsPath r = true then .error "glob root must be relative to the target root"
  else
    match Append troot r with
    | .error e => .error e
    | .ok abs =>
      match fs abs with
      | none => .error "glob root does not exist"
      | some d => if d = true then .ok abs else .error "glob root is not a directory"

/-- Resolution of one include/exclude glob (config.go 229-268 and 283-322):
default an empty root to the target root, else resolve it relative to the
target root; require a non-empty relative pattern and join it onto the
resolved root. -/
def resolveGlob (fs : GoPath → Option Bool) (troot : GoPath) (g : Glob) :
    Except String Glob :=
  match (if g.Root = [] then Except.ok troot else resolveRelRoot fs troot g.Root) with
  | .error e => .error e
  | .ok root =>
    if g.Pattern = [] then .error "glob pattern is empty"
    else if isAbsPath g.Pattern = true then .error "glob pattern must be relative"
    else
      match Append root g.Pattern with
      | .error e => .error e
      | .ok pat => .ok { Pattern := pat, Root := root }

/-- Exec.Dir resolution (config.go 341-362): an empty dir defaults to the
target root, otherwise it is joined onto the target root (an escaping join
is the error wrapped as the dir lying outside the target-level root) and
must exist as a directory. -/
def resolveExec (fs : GoPath → Option Bool) (troot : GoPath) (e : Exec) :
    Except String Exec :=
  if e.Dir = [] then .ok { e with Dir := troot }
  else
    match Append troot e.Dir with
    | .error err => .error err
    | .ok d =>
      match fs d with
      | none => .error "exec dir does not exist"
      | some isd => if isd = true then .ok { e with Dir := d } else .error "exec dir is not a directory"

/-- Handler pass of FinalizeConfig (config.go 341-374): resolve every exec
dir (timeout parsing elided). -/
def resolveHandler (fs : GoPath → Option Bool) (troot : GoPath) (hd : Handler) :
    Except String Handler :=
  match mapME (resolveExec fs troot) hd.Exec with
  | .error e => .error e
  | .ok execs => .ok { hd with Exec := execs }

/-- Early per-target checks of FinalizeConfig (config.go 185-205): a target
with includes needs a root, a label is required, and the (already absolute)
root must exist and be a directory. -/
def checkRootLabel (fs : GoPath → Option Bool) (t : Target) : Except String Unit :=
  if t.Root = [] ∧ t.Include ≠ [] then .error "target is missing a Root field"
  else if t.Label = "" then .error "target is missing a Label field"
  else
    match fs t.Root with
    | none => .error "target root does not exist"
    | some d => if d = true then .ok () else .error "target root is not a directory"

/-- Absoluteness check on the global exclude patterns before they are
appended to the per-target exclude list with an empty root (config.go
273-278). -/
def checkGlobalExclude (ge : List Glob) : Except String (List Glob) :=
  mapME (fun e =>
    if isAbsPath e.Pattern = true then Except.error "global exclude must be relative"
    else Except.ok ({ Pattern := e.Pattern, Root := [] } : Glob)) ge

/-- Per-target portion of FinalizeConfig (config.go 185-375) in source
order: early root/label checks, include resolution, global-exclude append,
exclude resolution, the explicit containment checks of config.go 324-334
(strings.HasPrefix on cleaned absolute paths, hence a component-prefix
test here), and the handler exec-dir pass. -/
def finalizeTarget (fs : GoPath → Option Bool) (ge : List Glob) (t : Target) :
    Except String Target :=
  match checkRootLabel fs t with
  | .error e => .error e
  | .ok _ =>
    match mapME (resolveGlob fs t.Root) t.Include with
    | .error e => .error e
    | .ok incs =>
      match checkGlobalExclude ge with
      | .error e => .error e
      | .ok geChecked =>
        match mapME (resolveGlob fs t.Root) (t.Exclude ++ geChecked) with
        | .error e => .error e
        | .ok excs =>
          if (incs.all (fun g => t.Root.isPrefixOf g.Root)) = false then
            .error "an Include.Root lies outside the target-level root"
          else if (excs.all (fun g => t.Root.isPrefixOf g.Root)) = false then
            .error "an Exclude.Root lies outside the target-level root"
          else
            match mapME (resolveHandler fs t.Root) t.Handler with
            | .error e => .error e
            | .ok hds => .ok { t with Include := incs, Exclude := excs, Handler := hds }

/- ------------------------------------------------------------------
   Concrete fixtures used by witnesses.
   ------------------------------------------------------------------ -/

/-- Filesystem oracle for the FinalizeConfig witness: every path exists and
is a directory. -/
def witFs : GoPath → Option Bool := fun _ => some true

/-- A raw config target for the FinalizeConfig witness: one include with a
defaulted root, one handler whose exec has a relative dir. -/
def witTarget : Target :=
  { Label := "lbl"
    Root := ["", "r"]
    Include := [{ Pattern := ["p"] }]
    Handler := [{ Label := "h", Exec := [{ Cmd := "c", Dir := ["d"] }] }] }

/-- The finalized form of witTarget: include pattern joined onto the
defaulted root, exec dir joined onto the target root. -/
def witTargetRes : Target :=
  { Label := "lbl"
    Root := ["", "r"]
    Include := [{ Pattern := ["", "r", "p"], Root := ["", "r"] }]
    Handler := [{ Label := "h", Exec := [{ Cmd := "c", Dir := ["", "r", "d"] }] }] }

/- ==================================================================
   Theorems. One theorem per claim, with witnesses and counterexamples
   where required.
   ================================================================== -/

/-- C6: evaluation of the EncodeToFile file-content model at a session file
that previously held three bytes while the new session encodes to one
byte. The resulting file is the new byte followed by two stale bytes of
the previous contents: neither exactly the new encoding nor exactly the
previous bytes, so the write is not all-or-nothing. -/
theorem encodeToFile_partial_overwrite :
    EncodeToFile [7, 7, 7] [5] = [5, 7, 7] ∧
    EncodeToFile [7, 7, 7] [5] ≠ [5] ∧
    EncodeToFile [7, 7, 7] [5] ≠ [7, 7, 7] := by decide

/-- C3: evaluation of the joint ingress-dedup and Slice.Iter model. With
the queued request for target T followed by one more entry, the
interaction deadlocks (result none): Slice.Delete blocks on the mutex the
Iter goroutine holds while Iter blocks sending the next item to the
broken-out-of range loop, so the older request is never removed. Only when
the matching entry is last does the dedup complete and remove it. -/
theorem ingressDedup_deadlocks_unless_last :
    ingressDedup [{ TargetId := "T" }, { TargetId := "X" }] "T" = none ∧
    ingressDedup [{ TargetId := "X" }, { TargetId := "T" }] "T" =
      some [{ TargetId := "X" }] := by decide

/-- C4 counterexample: with two targetCtx entries holding distinct cancel
handles, Stop invokes only the first handle; the second in-flight cancel
handle is never invoked because the Range callback returns false after the
first entry, which stops the iteration. This refutes the claim that every
entry of target_ctx has its cancel handle invoked. -/
theorem dispatcherStop_skips_second_entry :
    (dispatcherStop [("t1", { Cancel := 1 }), ("t2", { Cancel := 2 })]).cancelled = [1] ∧
    2 ∉ (dispatcherStop [("t1", { Cancel := 1 }), ("t2", { Cancel := 2 })]).cancelled := by
  decide

/-- C4 (amended): Stop closes done and invokes the cancel handle of exactly
the first targetCtx entry visited (none when the map is empty); the Range
callback returns false, stopping after one entry. Because all entries
installed by the single serialized in-flight run share one tree-wide
cancel handle, cancelling the first entry still aborts the in-flight
process tree. -/
theorem dispatcherStop_closes_done_cancels_first
    (targetCtx : List (String × TargetContext)) :
    (dispatcherStop targetCtx).doneClosed = true ∧
    (dispatcherStop targetCtx).cancelled = (targetCtx.take 1).map (fun e => e.2.Cancel) := by
  cases targetCtx <;> simp [dispatcherStop, syncMapRange]

/-- C8 counterexample: a Rename event for a currently watched path leaves
the include map identical and registers no path, while the claim asserts
Rename and Remove events update the watch set. Nothing is enqueued
either. -/
theorem watcherEvent_rename_updates_nothing :
    watcherEvent (fun _ => some false) (fun _ => { Match := true }) {}
        [(["", "a"], { Pattern := ["", "a", "p"], Root := ["", "a"] })]
        { Path := ["", "a"], Op := Op.Rename } =
      { state := [(["", "a"], { Pattern := ["", "a", "p"], Root := ["", "a"] })]
        added := []
        req := none } := by decide

/-- C8 (amended): only Create and Write events can emit an ExecRequest;
Rename and Remove events are dropped entirely by Watcher.Event, leaving the
include map and the monitored path list unchanged and enqueuing nothing. -/
theorem watcherEvent_rename_remove_dropped (fs : GoPath → Option Bool)
    (matcher : GoPath → MatchAnyOutput) (w : Target)
    (st : List (GoPath × Glob)) (event : Event) :
    ((event.Op = Op.Rename ∨ event.Op = Op.Remove) →
       watcherEvent fs matcher w st event = { state := st, added := [], req := none }) ∧
    (∀ r, (watcherEvent fs matcher w st event).req = some r →
       event.Op = Op.Create ∨ event.Op = Op.Write) := by
  constructor
  · rintro (h | h) <;>
      simp [watcherEvent, h, Op.Rename, Op.Remove, Op.Write, Op.Create]
  · intro r hr
    by_cases hw : event.Op = Op.Write
    · exact Or.inr hw
    by_cases hc : event.Op = Op.Create
    · exact Or.inl hc
    exfalso
    simp [watcherEvent, hw, hc] at hr

/-- C8 witness: the amended theorem applied to a concrete Remove event. -/
theorem watcherEvent_rename_remove_dropped_witness :
    watcherEvent (fun _ => some true) (fun _ => {}) {} []
        { Path := [""], Op := Op.Remove } =
      { state := [], added := [], req := none } :=
  (watcherEvent_rename_remove_dropped _ _ _ _ _).1 (Or.inr rfl)

/-- C10: a Create event whose parent directory is not in the per-target
include map is silently ignored: the map is unchanged, no path is watched,
and no ExecRequest is emitted, whatever the matcher returned for the
path. -/
theorem watcherEvent_create_unknown_parent_ignored (fs : GoPath → Option Bool)
    (matcher : GoPath → MatchAnyOutput) (w : Target)
    (st : List (GoPath × Glob)) (event : Event) (d : Bool)
    (hop : event.Op = Op.Create)
    (hex : fs event.Path = some d)
    (hpar : lookupInclude st (dirOf event.Path) = none) :
    watcherEvent fs matcher w st event = { state := st, added := [], req := none } := by
  simp [watcherEvent, hop, hex, hpar, Op.Create, Op.Write]

/-- C10 witness: a concrete Create of a path matching the includes (the
matcher reports a match and no exclude) under an unknown parent is still
ignored. -/
theorem watcherEvent_create_unknown_parent_ignored_witness :
    watcherEvent (fun _ => some false) (fun _ => { Match := true }) {} []
        { Path := ["", "a", "f"], Op := Op.Create } =
      { state := [], added := [], req := none } :=
  watcherEvent_create_unknown_parent_ignored _ _ _ _ _ false rfl rfl rfl

/-- C5: the startup resume scan seeds exactly the per-status results in
order, and per status: when no config target carries its target id the
status is dropped and no request is emitted; when one does, a cause of
Started, Resumed or Pending is reclassified (through Started) to a
displayed Resumed and a synthetic cause-"resume" ExecRequest carrying the
target tree is emitted; any other cause is kept as-is with no request. -/
theorem resumeScan_spec (targets : List Target) :
    (∀ ss : List Status,
       (resumeScan targets ss).1 = ss.filterMap (fun s => (processStatus targets s).1) ∧
       (resumeScan targets ss).2 = ss.filterMap (fun s => (processStatus targets s).2)) ∧
    (∀ s : Status,
       (targets.find? (fun t => t.Id == s.TargetId) = none →
          processStatus targets s = (none, none)) ∧
       (∀ t, targets.find? (fun t => t.Id == s.TargetId) = some t →
          ((s.Cause = TargetStarted ∨ s.Cause = TargetResumed ∨ s.Cause = TargetPending) →
             processStatus targets s =
               (some { s with Cause := TargetResumed },
                some { Cause := "resume", TargetId := s.TargetId,
                       TargetLabel := s.TargetLabel, Tree := t.Tree })) ∧
          (¬(s.Cause = TargetStarted ∨ s.Cause = TargetResumed ∨ s.Cause = TargetPending) →
             processStatus targets s = (some s, none)))) := by
  constructor
  · intro ss
    induction ss with
    | nil => simp [resumeScan]
    | cons s rest ih =>
      cases h1 : (processStatus targets s).1 <;> cases h2 : (processStatus targets s).2 <;>
        simp [resumeScan, List.filterMap_cons, h1, h2, ih.1, ih.2]
  · intro s
    constructor
    · intro hf
      by_cases hc : s.Cause = TargetResumed ∨ s.Cause = TargetPending <;>
        simp [processStatus, hc, hf]
    · intro t ht
      constructor
      · rintro (h | h | h) <;>
          simp [processStatus, ht, h, TargetStarted, TargetResumed, TargetPending]
      · intro hn
        push_neg at hn
        simp [processStatus, ht, hn.1, hn.2.1, hn.2.2]

/-- C5 witness: a decoded Pending status whose target is still configured
is seeded as Resumed and yields a cause-"resume" ExecRequest with the tree
of the configured target; the scan output matches. -/
theorem resumeScan_spec_witness :
    processStatus [{ Id := "T", Tree := [{ Id := "T", Label := "L" }] }]
        { Cause := TargetPending, TargetId := "T", TargetLabel := "L" } =
      (some { Cause := TargetResumed, TargetId := "T", TargetLabel := "L" },
       some { Cause := "resume", TargetId := "T", TargetLabel := "L",
              Tree := [{ Id := "T", Label := "L" }] }) :=
  (((resumeScan_spec [{ Id := "T", Tree := [{ Id := "T", Label := "L" }] }]).2
      { Cause := TargetPending, TargetId := "T", TargetLabel := "L" }).2
    { Id := "T", Tree := [{ Id := "T", Label := "L" }] } (by decide)).1
    (Or.inr (Or.inr rfl))

/-- C2: after the executor returns, a non-nil per-command context error
replaces the executor error (and with a nil context error the final error
is the executor error unchanged); when the final error is non-nil the
emitted failure status carries exactly that message in Err and has cause
TargetCanceled precisely when the context error was non-nil and
TargetFailed otherwise; and the runTarget exec step emits exactly the
Started emission followed by that failure status. -/
theorem execFailure_ctx_override (req : ExecRequest) (t : TargetTree) (hd : Handler)
    (e : Exec) (o : ExecOutcome) :
    (∀ cm, o.ctxErr = some cm → o.finalErr = some cm) ∧
    (o.ctxErr = none → o.finalErr = o.execErr) ∧
    (∀ msg, o.finalErr = some msg →
       (failStatus req t hd e o msg).Err = msg ∧
       ((failStatus req t hd e o msg).Cause = TargetCanceled ↔ o.ctxErr ≠ none) ∧
       ((failStatus req t hd e o msg).Cause = TargetFailed ↔ o.ctxErr = none)) ∧
    (∀ msg rest k (f : Nat → ExecOutcome), f k = o → o.finalErr = some msg →
       runExecs req t hd f (e :: rest) k =
         { emits := [Emit.start (startStatus req t hd),
                     Emit.fail (failStatus req t hd e o msg)]
           next := k + 1
           stopped := true }) := by
  refine ⟨?_, ?_, ?_, ?_⟩
  · intro cm h; simp [ExecOutcome.finalErr, h]
  · intro h; simp [ExecOutcome.finalErr, h]
  · intro msg _
    refine ⟨rfl, ?_, ?_⟩ <;>
      cases hc : o.ctxErr <;>
        simp [failStatus, hc, TargetCanceled, TargetFailed]
  · intro msg rest k f hf h
    simp [runExecs, hf, h]

/-- C2 witness: a concrete outcome where the executor reported an exit
error and the context was cancelled: the context error wins, the status is
a Canceled one and Err carries the context error message. -/
theorem execFailure_ctx_override_witness :
    ({ execErr := some "exit status 1", ctxErr := some "context canceled" }
        : ExecOutcome).finalErr = some "context canceled" ∧
    (failStatus {} {} {} {}
        { execErr := some "exit status 1", ctxErr := some "context canceled" }
        "context canceled").Cause = TargetCanceled :=
  ⟨(execFailure_ctx_override {} {} {} {}
      { execErr := some "exit status 1", ctxErr := some "context canceled" }).1
      "context canceled" rfl,
   (((execFailure_ctx_override {} {} {} {}
        { execErr := some "exit status 1", ctxErr := some "context canceled" }).2.2.1
      "context canceled" rfl).2.1).mpr (by decide)⟩

/-- Helper: GlobAny with a single include glob that matches no existing
path returns empty mappings, whatever the excludes match: the exclude
mapping only ever holds paths that matched an include pattern. -/
theorem globAny_no_include_match (fs : List GoPath) (m : Glob → GoPath → Bool)
    (g : Glob) (exclude : List Glob) (hnm : ∀ p ∈ fs, m g p = false) :
    GlobAny fs m { Include := [g], Exclude := exclude } = { Include := [], Exclude := [] } := by
  simp only [GlobAny, GlobAnyOutput.mk.injEq]
  constructor <;>
    · rw [List.filterMap_eq_nil_iff]
      intro p hp
      simp [hnm p hp]

/-- C7: when no path under an include matches its pattern, the
GlobAnyOutput returned by GetTargetGlob for that include maps exactly the
include root to the include glob, so the root stays watchable; the
hypothesis allows the excludes to match anything, because a path only ever
reaches the exclude mapping by first matching the include. -/
theorem getTargetGlob_unmatched_root_watchable (fs : List GoPath)
    (m : Glob → GoPath → Bool) (incs exclude : List Glob)
    (n : Nat) (hn : n < incs.length)
    (hnm : ∀ p ∈ fs,
      m { Pattern := (incs.get ⟨n, hn⟩).Pattern, Root := (incs.get ⟨n, hn⟩).Root } p = false) :
    (GetTargetGlob fs m incs exclude).get ⟨n, by simpa [GetTargetGlob] using hn⟩ =
      { Include := [((incs.get ⟨n, hn⟩).Root,
          { Pattern := (incs.get ⟨n, hn⟩).Pattern, Root := (incs.get ⟨n, hn⟩).Root })]
        Exclude := [] } := by
  have hg : (GetTargetGlob fs m incs exclude).get ⟨n, by simpa [GetTargetGlob] using hn⟩ =
      getTargetGlobOne fs m exclude (incs.get ⟨n, hn⟩) := by
    simp [GetTargetGlob]
  rw [hg]
  simp only [getTargetGlobOne, globAny_no_include_match fs m _ exclude hnm]
  simp [addAncestors]

/-- C7 witness: one existing path, a matcher that never matches, one
include: the single output maps the include root to the include glob. -/
theorem getTargetGlob_unmatched_root_watchable_witness :
    (GetTargetGlob [["", "r", "a"]] (fun _ _ => false)
        [{ Pattern := ["", "r", "p"], Root := ["", "r"] }] []).get
        ⟨0, by simp [GetTargetGlob]⟩ =
      { Include := [((["", "r"] : GoPath),
          { Pattern := ["", "r", "p"], Root := ["", "r"] })]
        Exclude := [] } :=
  getTargetGlob_unmatched_root_watchable [["", "r", "a"]] (fun _ _ => false)
    [{ Pattern := ["", "r", "p"], Root := ["", "r"] }] [] 0 (by simp)
    (fun p _ => rfl)

/-- Helper: an ok result of mapME consists of ok images of input
elements. -/
theorem mapME_ok_mem {α β : Type} (f : α → Except String β) :
    ∀ (l : List α) (r : List β), mapME f l = .ok r →
      ∀ y ∈ r, ∃ x ∈ l, f x = .ok y := by
  intro l
  induction l with
  | nil =>
    intro r h y hy
    simp only [mapME, Except.ok.injEq] at h
    subst h
    simp at hy
  | cons x xs ih =>
    intro r h y hy
    simp only [mapME] at h
    cases hfx : f x with
    | error e => simp [hfx] at h
    | ok y0 =>
      cases hm : mapME f xs with
      | error e => simp [hfx, hm] at h
      | ok ys =>
        simp only [hfx, hm, Except.ok.injEq] at h
        subst h
        rcases List.mem_cons.1 hy with hy | hy
        · exact ⟨x, List.mem_cons_self x xs, by rw [hfx, hy]⟩
        · obtain ⟨x', hx', hfx'⟩ := ih ys hm y hy
          exact ⟨x', List.mem_cons_of_mem x hx', hfx'⟩

/-- Helper: a successful Append keeps the base as a component prefix of the
result, by construction. -/
theorem append_ok_isPrefixOf (base rel p : GoPath) (h : Append base rel = .ok p) :
    base.isPrefixOf p = true := by
  unfold Append at h
  split at h
  · simp only [Except.ok.injEq] at h
    subst h
    assumption
  · simp at h

/-- Helper: a successfully resolved exec dir is under the target root. -/
theorem resolveExec_ok (fs : GoPath → Option Bool) (troot : GoPath) (e e' : Exec)
    (h : resolveExec fs troot e = .ok e') : troot.isPrefixOf e'.Dir = true := by
  unfold resolveExec at h
  split at h
  · simp only [Except.ok.injEq] at h
    subst h
    simp [List.isPrefixOf_iff_prefix]
  · split at h
    · simp at h
    · rename_i d hap
      split at h
      · simp at h
      · rename_i isd hfs
        split at h
        · simp only [Except.ok.injEq] at h
          subst h
          simpa using append_ok_isPrefixOf _ _ _ hap
        · simp at h

/-- Helper: every exec of a successfully resolved handler has its dir under
the target root. -/
theorem resolveHandler_ok (fs : GoPath → Option Bool) (troot : GoPath) (hd hd' : Handler)
    (h : resolveHandler fs troot hd = .ok hd') :
    ∀ e ∈ hd'.Exec, troot.isPrefixOf e.Dir = true := by
  unfold resolveHandler at h
  cases hm : mapME (resolveExec fs troot) hd.Exec with
  | error err => rw [hm] at h; simp at h
  | ok execs =>
    rw [hm] at h
    simp only [Except.ok.injEq] at h
    subst h
    intro e he
    obtain ⟨x, _, hfx⟩ := mapME_ok_mem _ _ _ hm e he
    exact resolveExec_ok fs troot x e hfx

/-- C9: when the per-target FinalizeConfig passes succeed, the target root
is a path prefix of every resolved include root, every resolved exclude
root (global excludes included) and every resolved exec dir; a
configuration violating this makes one of the passes return the error that
aborts config resolution. -/
theorem finalizeTarget_containment (fs : GoPath → Option Bool) (ge : List Glob)
    (t t' : Target) (h : finalizeTarget fs ge t = .ok t') :
    (∀ g ∈ t'.Include, t'.Root.isPrefixOf g.Root = true) ∧
    (∀ g ∈ t'.Exclude, t'.Root.isPrefixOf g.Root = true) ∧
    (∀ hd ∈ t'.Handler, ∀ e ∈ hd.Exec, t'.Root.isPrefixOf e.Dir = true) := by
  unfold finalizeTarget at h
  cases hcr : checkRootLabel fs t <;> rw [hcr] at h <;> dsimp only at h
  case error => simp at h
  case ok u =>
  cases hincs : mapME (resolveGlob fs t.Root) t.Include <;> rw [hincs] at h <;>
    dsimp only at h
  case error => simp at h
  case ok incs =>
  cases hge : checkGlobalExclude ge <;> rw [hge] at h <;> dsimp only at h
  case error => simp at h
  case ok geChecked =>
  cases hexcs : mapME (resolveGlob fs t.Root) (t.Exclude ++ geChecked) <;>
    rw [hexcs] at h <;> dsimp only at h
  case error => simp at h
  case ok excs =>
  by_cases hic : (incs.all fun g => t.Root.isPrefixOf g.Root) = false
  · rw [if_pos hic] at h; simp at h
  · rw [if_neg hic] at h
    by_cases hec : (excs.all fun g => t.Root.isPrefixOf g.Root) = false
    · rw [if_pos hec] at h; simp at h
    · rw [if_neg hec] at h
      cases hhds : mapME (resolveHandler fs t.Root) t.Handler <;> rw [hhds] at h <;>
        dsimp only at h
      · simp at h
      · rename_i hds
        simp only [Except.ok.injEq] at h
        subst h
        have hic' : (incs.all fun g => t.Root.isPrefixOf g.Root) = true := by
          revert hic; cases incs.all fun g => t.Root.isPrefixOf g.Root <;> simp
        have hec' : (excs.all fun g => t.Root.isPrefixOf g.Root) = true := by
          revert hec; cases excs.all fun g => t.Root.isPrefixOf g.Root <;> simp
        refine ⟨?_, ?_, ?_⟩
        · intro g hg
          exact List.all_eq_true.1 hic' g hg
        · intro g hg
          exact List.all_eq_true.1 hec' g hg
        · intro hd hhd e he
          obtain ⟨hd0, _, hf0⟩ := mapME_ok_mem _ _ _ hhds hd hhd
          exact resolveHandler_ok fs t.Root hd0 hd hf0 e he

/-- C9 witness: the concrete target resolves successfully and the theorem
yields containment of its resolved include root and exec dir under the
target root. -/
theorem finalizeTarget_containment_witness :
    finalizeTarget witFs [] witTarget = .ok witTargetRes ∧
    (∀ g ∈ witTargetRes.Include, witTargetRes.Root.isPrefixOf g.Root = true) ∧
    (∀ hd ∈ witTargetRes.Handler, ∀ e ∈ hd.Exec,
       witTargetRes.Root.isPrefixOf e.Dir = true) :=
  ⟨rfl,
   (finalizeTarget_containment witFs [] witTarget witTargetRes rfl).1,
   (finalizeTarget_containment witFs [] witTarget witTargetRes rfl).2.2⟩

/-- Helper: an exec loop that did not stop consumed exactly its exec count
of outcomes, all with nil final errors, and emitted only benign
emissions. -/
theorem runExecs_not_stopped (req : ExecRequest) (t : TargetTree) (hd : Handler)
    (f : Nat → ExecOutcome) :
    ∀ (es : List Exec) (k : Nat), (runExecs req t hd f es k).stopped = false →
      (runExecs req t hd f es k).next = k + es.length ∧
      (∀ j, j < es.length → (f (k + j)).finalErr = none) ∧
      (∀ x ∈ (runExecs req t hd f es k).emits, x.benign) := by
  intro es
  induction es with
  | nil =>
    intro k _
    simp [runExecs]
  | cons e rest ih =>
    intro k hs
    cases ho : (f k).finalErr with
    | some msg => simp [runExecs, ho] at hs
    | none =>
      have hs' : (runExecs req t hd f rest (k + 1)).stopped = false := by
        simpa [runExecs, ho] using hs
      obtain ⟨ih1, ih2, ih3⟩ := ih (k + 1) hs'
      refine ⟨?_, ?_, ?_⟩
      · simp only [runExecs, ho]
        rw [ih1]
        simp [List.length_cons]
        omega
      · intro j hj
        cases j with
        | zero => simpa using ho
        | succ j' =>
          have hkk : k + (j' + 1) = (k + 1) + j' := by omega
          rw [hkk]
          exact ih2 j' (by simpa using Nat.lt_of_succ_lt_succ hj)
      · intro x hx
        simp only [runExecs, ho, List.mem_cons] at hx
        rcases hx with hx | hx
        · subst hx
          exact ⟨rfl, rfl⟩
        · exact ih3 x hx

/-- Helper: an exec loop that stopped emitted a single trailing failure
status after only benign emissions. -/
theorem runExecs_stopped (req : ExecRequest) (t : TargetTree) (hd : Handler)
    (f : Nat → ExecOutcome) :
    ∀ (es : List Exec) (k : Nat), (runExecs req t hd f es k).stopped = true →
      ∃ pre s, (runExecs req t hd f es k).emits = pre ++ [Emit.fail s] ∧
        ∀ x ∈ pre, x.benign := by
  intro es
  induction es with
  | nil => intro k hs; simp [runExecs] at hs
  | cons e rest ih =>
    intro k hs
    cases ho : (f k).finalErr with
    | some msg =>
      refine ⟨[Emit.start (startStatus req t hd)], failStatus req t hd e (f k) msg, ?_, ?_⟩
      · simp [runExecs, ho]
      · intro x hx
        simp at hx
        subst hx
        exact ⟨rfl, rfl⟩
    | none =>
      have hs' : (runExecs req t hd f rest (k + 1)).stopped = true := by
        simpa [runExecs, ho] using hs
      obtain ⟨pre, s, hps, hpre⟩ := ih (k + 1) hs'
      refine ⟨Emit.start (startStatus req t hd) :: pre, s, ?_, ?_⟩
      · simp [runExecs, ho, hps]
      · intro x hx
        rcases List.mem_cons.1 hx with hx | hx
        · subst hx; exact ⟨rfl, rfl⟩
        · exact hpre x hx

/-- Helper: a handler loop that did not stop consumed exactly its exec
count of outcomes, all nil, and emitted only benign emissions. -/
theorem runHandlers_not_stopped (req : ExecRequest) (t : TargetTree)
    (f : Nat → ExecOutcome) :
    ∀ (hs : List Handler) (k : Nat), (runHandlers req t f hs k).stopped = false →
      (runHandlers req t f hs k).next = k + handlersExecCount hs ∧
      (∀ j, j < handlersExecCount hs → (f (k + j)).finalErr = none) ∧
      (∀ x ∈ (runHandlers req t f hs k).emits, x.benign) := by
  intro hs
  induction hs with
  | nil =>
    intro k _
    simp [runHandlers, handlersExecCount]
  | cons hd rest ih =>
    intro k hstop
    by_cases h1 : (runExecs req t hd f hd.Exec k).stopped = true
    · rw [runHandlers, if_pos h1] at hstop
      rw [h1] at hstop
      exact absurd hstop (by simp)
    · have h1' : (runExecs req t hd f hd.Exec k).stopped = false := by
        revert h1; cases (runExecs req t hd f hd.Exec k).stopped <;> simp
      obtain ⟨e1, e2, e3⟩ := runExecs_not_stopped req t hd f hd.Exec k h1'
      rw [runHandlers, if_neg h1] at hstop
      simp only at hstop
      have hs2 : (runHandlers req t f rest (runExecs req t hd f hd.Exec k).next).stopped = false := hstop
      obtain ⟨ih1, ih2, ih3⟩ := ih (runExecs req t hd f hd.Exec k).next hs2
      have hcnt : handlersExecCount (hd :: rest) = hd.Exec.length + handlersExecCount rest := by
        simp [handlersExecCount]
      refine ⟨?_, ?_, ?_⟩
      · rw [runHandlers, if_neg h1]
        simp only
        rw [ih1, e1, hcnt]
        omega
      · intro j hj
        rw [hcnt] at hj
        rcases Nat.lt_or_ge j hd.Exec.length with hlt | hge
        · exact e2 j hlt
        · obtain ⟨j', rfl⟩ := Nat.exists_eq_add_of_le hge
          have hkk : k + (hd.Exec.length + j') = (runExecs req t hd f hd.Exec k).next + j' := by
            rw [e1]; omega
          rw [hkk]
          exact ih2 j' (by omega)
      · intro x hx
        rw [runHandlers, if_neg h1] at hx
        simp only [List.mem_append] at hx
        rcases hx with hx | hx
        · exact e3 x hx
        · exact ih3 x hx

/-- Helper: a handler loop that stopped emitted a single trailing failure
status after only benign emissions. -/
theorem runHandlers_stopped (req : ExecRequest) (t : TargetTree)
    (f : Nat → ExecOutcome) :
    ∀ (hs : List Handler) (k : Nat), (runHandlers req t f hs k).stopped = true →
      ∃ pre s, (runHandlers req t f hs k).emits = pre ++ [Emit.fail s] ∧
        ∀ x ∈ pre, x.benign := by
  intro hs
  induction hs with
  | nil => intro k hstop; simp [runHandlers] at hstop
  | cons hd rest ih =>
    intro k hstop
    by_cases h1 : (runExecs req t hd f hd.Exec k).stopped = true
    · obtain ⟨pre, s, hps, hpre⟩ := runExecs_stopped req t hd f hd.Exec k h1
      refine ⟨pre, s, ?_, hpre⟩
      rw [runHandlers, if_pos h1]
      exact hps
    · have h1' : (runExecs req t hd f hd.Exec k).stopped = false := by
        revert h1; cases (runExecs req t hd f hd.Exec k).stopped <;> simp
      obtain ⟨_, _, e3⟩ := runExecs_not_stopped req t hd f hd.Exec k h1'
      rw [runHandlers, if_neg h1] at hstop
      simp only at hstop
      obtain ⟨pre, s, hps, hpre⟩ := ih (runExecs req t hd f hd.Exec k).next hstop
      refine ⟨(runExecs req t hd f hd.Exec k).emits ++ pre, s, ?_, ?_⟩
      · rw [runHandlers, if_neg h1]
        simp only
        rw [hps, List.append_assoc]
      · intro x hx
        rcases List.mem_append.1 hx with hx | hx
        · exact e3 x hx
        · exact hpre x hx

/-- Helper: a tree loop that did not stop consumed exactly the tree exec
count of outcomes, all nil, and emitted only benign emissions. -/
theorem runTargets_not_stopped (req : ExecRequest) (f : Nat → ExecOutcome) :
    ∀ (ts : List TargetTree) (k : Nat), (runTargets req f ts k).stopped = false →
      (runTargets req f ts k).next = k + treeExecCount ts ∧
      (∀ j, j < treeExecCount ts → (f (k + j)).finalErr = none) ∧
      (∀ x ∈ (runTargets req f ts k).emits, x.benign) := by
  intro ts
  induction ts with
  | nil =>
    intro k _
    simp [runTargets, treeExecCount]
  | cons t rest ih =>
    intro k hstop
    by_cases h1 : (runHandlers req t f t.Handler k).stopped = true
    · rw [runTargets, if_pos h1] at hstop
      rw [h1] at hstop
      exact absurd hstop (by simp)
    · have h1' : (runHandlers req t f t.Handler k).stopped = false := by
        revert h1; cases (runHandlers req t f t.Handler k).stopped <;> simp
      obtain ⟨e1, e2, e3⟩ := runHandlers_not_stopped req t f t.Handler k h1'
      rw [runTargets, if_neg h1] at hstop
      simp only at hstop
      obtain ⟨ih1, ih2, ih3⟩ := ih (runHandlers req t f t.Handler k).next hstop
      have hcnt : treeExecCount (t :: rest) =
          handlersExecCount t.Handler + treeExecCount rest := by
        simp [treeExecCount]
      refine ⟨?_, ?_, ?_⟩
      · rw [runTargets, if_neg h1]
        simp only
        rw [ih1, e1, hcnt]
        omega
      · intro j hj
        rw [hcnt] at hj
        rcases Nat.lt_or_ge j (handlersExecCount t.Handler) with hlt | hge
        · exact e2 j hlt
        · obtain ⟨j', rfl⟩ := Nat.exists_eq_add_of_le hge
          have hkk : k + (handlersExecCount t.Handler + j') =
              (runHandlers req t f t.Handler k).next + j' := by
            rw [e1]; omega
          rw [hkk]
          exact ih2 j' (by omega)
      · intro x hx
        rw [runTargets, if_neg h1] at hx
        simp only [List.mem_append, List.mem_cons] at hx
        rcases hx with hx | hx | hx
        · exact e3 x hx
        · subst hx; exact ⟨rfl, rfl⟩
        · exact ih3 x hx

/-- Helper: a tree loop that stopped emitted a single trailing failure
status after only benign emissions. -/
theorem runTargets_stopped (req : ExecRequest) (f : Nat → ExecOutcome) :
    ∀ (ts : List TargetTree) (k : Nat), (runTargets req f ts k).stopped = true →
      ∃ pre s, (runTargets req f ts k).emits = pre ++ [Emit.fail s] ∧
        ∀ x ∈ pre, x.benign := by
  intro ts
  induction ts with
  | nil => intro k hstop; simp [runTargets] at hstop
  | cons t rest ih =>
    intro k hstop
    by_cases h1 : (runHandlers req t f t.Handler k).stopped = true
    · obtain ⟨pre, s, hps, hpre⟩ := runHandlers_stopped req t f t.Handler k h1
      refine ⟨pre, s, ?_, hpre⟩
      rw [runTargets, if_pos h1]
      exact hps
    · have h1' : (runHandlers req t f t.Handler k).stopped = false := by
        revert h1; cases (runHandlers req t f t.Handler k).stopped <;> simp
      obtain ⟨_, _, e3⟩ := runHandlers_not_stopped req t f t.Handler k h1'
      rw [runTargets, if_neg h1] at hstop
      simp only at hstop
      obtain ⟨pre, s, hps, hpre⟩ := ih (runHandlers req t f t.Handler k).next hstop
      refine ⟨(runHandlers req t f t.Handler k).emits ++
        Emit.targetPass { TargetId := t.Id } :: pre, s, ?_, ?_⟩
      · rw [runTargets, if_neg h1]
        simp only
        rw [hps]
        simp
      · intro x hx
        rcases List.mem_append.1 hx with hx | hx
        · exact e3 x hx
        · rcases List.mem_cons.1 hx with hx | hx
          · subst hx; exact ⟨rfl, rfl⟩
          · exact hpre x hx

/-- C1: when some exec of the run finishes with a non-nil final error,
runTarget emits exactly one Failed/Canceled status, that status is the
last emission (so no later exec, handler or tree member is started and no
TargetPass follows it), and no TreePass is emitted at all. -/
theorem runTarget_failfast (req : ExecRequest) (f : Nat → ExecOutcome)
    (hfail : ∃ j, j < treeExecCount req.Tree ∧ ((f j).finalErr).isSome = true) :
    (∃ pre s, runTarget req f = pre ++ [Emit.fail s] ∧ ∀ x ∈ pre, x.isFail = false) ∧
    (runTarget req f).countP (fun x => x.isFail) = 1 ∧
    (∀ x ∈ runTarget req f, x.isTreePass = false) := by
  obtain ⟨j, hj, hne⟩ := hfail
  by_cases hstop : (runTargets req f req.Tree 0).stopped = true
  · have hrt : runTarget req f = (runTargets req f req.Tree 0).emits := by
      rw [runTarget, if_pos hstop]
    obtain ⟨pre, s, hemits, hpre⟩ := runTargets_stopped req f req.Tree 0 hstop
    refine ⟨⟨pre, s, by rw [hrt, hemits], fun x hx => (hpre x hx).1⟩, ?_, ?_⟩
    · rw [hrt, hemits, List.countP_append]
      have hz : pre.countP (fun x => x.isFail) = 0 := by
        rw [List.countP_eq_zero]
        intro x hx
        simp [(hpre x hx).1]
      rw [hz]
      simp [List.countP_cons, Emit.isFail]
    · intro x hx
      rw [hrt, hemits] at hx
      rcases List.mem_append.1 hx with hx | hx
      · exact (hpre x hx).2
      · simp at hx
        subst hx
        rfl
  · have hstop' : (runTargets req f req.Tree 0).stopped = false := by
      revert hstop; cases (runTargets req f req.Tree 0).stopped <;> simp
    obtain ⟨_, h2, _⟩ := runTargets_not_stopped req f req.Tree 0 hstop'
    have := h2 j hj
    rw [Nat.zero_add] at this
    rw [this] at hne
    simp at hne

/-- C1 witness: a one-target, one-handler, one-exec tree whose exec fails
emits exactly one failure status. -/
theorem runTarget_failfast_witness :
    (runTarget
        { TargetId := "T"
          Tree := [{ Id := "T", Label := "T",
                     Handler := [{ Label := "h", Exec := [{ Cmd := "c" }] }] }] }
        (fun _ => { execErr := some "exit status 1" })).countP (fun x => x.isFail) = 1 :=
  (runTarget_failfast
      { TargetId := "T"
        Tree := [{ Id := "T", Label := "T",
                   Handler := [{ Label := "h", Exec := [{ Cmd := "c" }] }] }] }
      (fun _ => { execErr := some "exit status 1" })
      ⟨0, by decide, by decide⟩).2.1

end Boone
